import Mathlib

/-!
Verification of the smartlight repository (src/smartlighting.py), a Flask
application with two routes: an index page rendered from a template and a
static-file passthrough, plus a startup block that reads the PORT
environment variable.

Python strings are modelled as lists of characters (PyStr).  The handlers
delegate to the framework functions they call, so those functions
(posixpath.normpath, werkzeug safe_join on a POSIX system, the framework
send_from_directory, and the python int constructor) are embedded here as
well, translated from their sources.  The filesystem is modelled as a map
from paths to the contents of the regular file there, and every handler
additionally records the list of filesystem operations it performs.
-/

abbrev PyStr := List Char

/-- python s.startswith(pre), on the list-of-characters model. -/
def startsWithPy : PyStr → PyStr → Bool
  | _, [] => true
  | [], _ :: _ => false
  | c :: s, p :: ps => if c = p then startsWithPy s ps else false

/-- python path.split on the slash character, as used by posixpath.normpath. -/
def splitSlash : PyStr → List PyStr
  | [] => [[]]
  | c :: rest =>
    if c = '/' then [] :: splitSlash rest
    else
      match splitSlash rest with
      | [] => [[c]]
      | s :: ss => (c :: s) :: ss

/-- python sep.join(comps) for the slash separator. -/
def joinSlash : List PyStr → PyStr
  | [] => []
  | [a] => a
  | a :: b :: t => a ++ '/' :: joinSlash (b :: t)

/-- One step of the component loop of posixpath.normpath.  The list
new_comps of the python source is kept as a reversed stack here: the head
is the most recently appended component. -/
def normStack (sabs : Bool) (st : List PyStr) (comp : PyStr) : List PyStr :=
  if comp = [] ∨ comp = ['.'] then st
  else if comp = ['.', '.'] then
    match st with
    | [] => if sabs then [] else [['.', '.']]
    | top :: rest => if top = ['.', '.'] then comp :: st else rest
  else comp :: st

/-- posixpath.normpath translated to the list-of-characters model. -/
def normpath (path : PyStr) : PyStr :=
  if path = [] then ['.']
  else
    let sabs := startsWithPy path ['/']
    let slashes : Nat :=
      if sabs then
        if startsWithPy path ['/', '/'] = true ∧ startsWithPy path ['/', '/', '/'] = false
        then 2 else 1
      else 0
    let comps := ((splitSlash path).foldl (normStack sabs) []).reverse
    let out := List.replicate slashes '/' ++ joinSlash comps
    if out = [] then ['.'] else out

/-- posixpath.join for two path components. -/
def posixJoin (a b : PyStr) : PyStr :=
  if startsWithPy b ['/'] then b
  else if a = [] ∨ startsWithPy a.reverse ['/'] then a ++ b
  else a ++ '/' :: b

/-- werkzeug safe_join for a single pathname on a POSIX system (where the
list of alternative separators is empty): normalize the filename, reject it
when it is absolute, equal to dot-dot, or begins with a dot-dot segment,
else join it under the directory. -/
def safe_join (directory filename : PyStr) : Option PyStr :=
  let d := if directory = [] then ['.'] else directory
  let f := if filename = [] then filename else normpath filename
  if startsWithPy f ['/'] = true ∨ f = ['.', '.'] ∨ startsWithPy f ['.', '.', '/'] = true
  then none
  else some (posixJoin d f)

/-- The filesystem visible to the process: a path maps to the contents of
the regular file there, or to none when no regular file is at that path. -/
def FS := PyStr → Option PyStr

/-- A filesystem operation performed by a handler. -/
inductive FsOp
  | stat (path : PyStr)
  | read (path : PyStr)
  | write (path : PyStr) (data : PyStr)
  deriving DecidableEq

def FsOp.isWrite : FsOp → Bool
  | .write _ _ => true
  | _ => false

structure HttpResponse where
  status : Nat
  body : PyStr
  mimetype : String
  deriving DecidableEq

def notFoundResp : HttpResponse := ⟨404, "404 Not Found".toList, "text/html"⟩

def methodNotAllowedResp : HttpResponse := ⟨405, "405 Method Not Allowed".toList, "text/html"⟩

def internalErrorResp : HttpResponse := ⟨500, "500 Internal Server Error".toList, "text/html"⟩

/-- The extension used for content-type guessing: the part of the last path
component after its last dot, where leading dots of the component do not
begin an extension (posixpath.splitext). -/
def extOf (p : PyStr) : PyStr :=
  let base := (p.reverse.takeWhile (fun c => ¬ c = '/')).reverse
  let core := base.dropWhile (fun c => c = '.')
  if core.any (fun c => c = '.') then (base.reverse.takeWhile (fun c => ¬ c = '.')).reverse
  else []

/-- mimetypes.guess_type restricted to the table entries relevant here,
with application/octet-stream as the send_file fallback for an unknown
extension. -/
def mimeFromExt (e : PyStr) : String :=
  if e = "html".toList then "text/html"
  else if e = "htm".toList then "text/html"
  else if e = "json".toList then "application/json"
  else if e = "css".toList then "text/css"
  else if e = "js".toList then "text/javascript"
  else if e = "png".toList then "image/png"
  else if e = "txt".toList then "text/plain"
  else "application/octet-stream"

/-- The framework send_from_directory: safe_join the directory and the
requested filename (rejection means 404), answer 404 unless a regular file
is at the joined path, else send the file contents with the content type
guessed from the extension.  The second component records the filesystem
operations performed. -/
def send_from_directory (fs : FS) (directory filename : PyStr) :
    HttpResponse × List FsOp :=
  match safe_join directory filename with
  | none => (notFoundResp, [])
  | some p =>
    match fs p with
    | none => (notFoundResp, [.stat p])
    | some content => (⟨200, content, mimeFromExt (extOf p)⟩, [.stat p, .read p])

def static_folder : PyStr := "static".toList

/-- The static_files handler at src/smartlighting.py lines 12-14. -/
def static_files (fs : FS) (filename : PyStr) : HttpResponse × List FsOp :=
  send_from_directory fs static_folder filename

def template_path : PyStr := "templates/index.html".toList

/-- Modelled from the spec: the template file templates/index.html is not
part of src/; the spec states it is a static HTML document rendered
verbatim (no templating variables), so a successful render returns the file
contents unchanged with status 200, and a missing or unreadable template
raises, which the framework surfaces as a 500-class response (debug is
False). -/
def render_template_index (fs : FS) : HttpResponse × List FsOp :=
  match fs template_path with
  | some content => (⟨200, content, "text/html"⟩, [.read template_path])
  | none => (internalErrorResp, [.stat template_path])

/-- The index handler at src/smartlighting.py lines 7-9. -/
def index (fs : FS) : HttpResponse × List FsOp :=
  render_template_index fs

structure Request where
  method : PyStr
  path : PyStr
  headers : List (PyStr × PyStr)
  query : PyStr
  body : PyStr
  deriving DecidableEq

def static_route : PyStr := "/static/".toList

def stripPrefixList : PyStr → PyStr → Option PyStr
  | [], s => some s
  | _ :: _, [] => none
  | p :: ps, c :: cs => if c = p then stripPrefixList ps cs else none

/-- Dispatch over the two registered routes.  The path converter of the
static route matches one or more characters whose first character is not a
slash; any other path, and any method other than GET, is answered by the
framework without invoking a handler. -/
def handle (fs : FS) (req : Request) : HttpResponse × List FsOp :=
  if ¬ req.method = "GET".toList then (methodNotAllowedResp, [])
  else if req.path = "/".toList then index fs
  else
    match stripPrefixList static_route req.path with
    | some fname =>
      if fname = [] ∨ startsWithPy fname ['/'] = true then (notFoundResp, [])
      else static_files fs fname
    | none => (notFoundResp, [])

/-- A whole service run: the responses and the filesystem operations of a
sequence of requests handled against the filesystem fixed at start. -/
def serveAll (fs : FS) : List Request → List HttpResponse × List FsOp
  | [] => ([], [])
  | r :: rs =>
    ((handle fs r).1 :: (serveAll fs rs).1, (handle fs r).2 ++ (serveAll fs rs).2)

/-- Resolution walk of a relative path below a directory: k counts how many
times the walk has stepped above the directory, d is the current depth
below it. -/
def walkK : List PyStr → Nat → Nat → Nat × Nat
  | [], k, d => (k, d)
  | s :: r, k, d =>
    if s = [] ∨ s = ['.'] then walkK r k d
    else if s = ['.', '.'] then
      if d = 0 then walkK r (k + 1) 0 else walkK r k (d - 1)
    else walkK r k (d + 1)

/-- The requested filename would resolve outside the directory it is served
relative to: it is absolute, or its dot-dot segments climb above the
directory at some point of the resolution. -/
def resolvesOutside (filename : PyStr) : Prop :=
  startsWithPy filename ['/'] = true ∨ (walkK (splitSlash filename) 0 0).1 ≠ 0

instance (filename : PyStr) : Decidable (resolvesOutside filename) := by
  unfold resolvesOutside; infer_instance

/-- The path the static route serves for a given filename: the normalized
filename joined under the static folder. -/
def staticResolved (name : PyStr) : PyStr := static_folder ++ '/' :: normpath name

example : normpath "a/../../b".toList = "../b".toList := by decide
example : normpath "a//b/./c/..".toList = "a/b".toList := by decide
example : normpath "/../a".toList = "/a".toList := by decide
example : normpath "//a".toList = "//a".toList := by decide
example : normpath "a/..".toList = ".".toList := by decide
example : normpath "x/...".toList = "x/...".toList := by decide
example : safe_join static_folder "..".toList = none := by decide
example : safe_join static_folder "../x".toList = none := by decide
example : safe_join static_folder "a/../../b".toList = none := by decide
example : safe_join static_folder "/etc/passwd".toList = none := by decide
example : safe_join static_folder "a/..".toList = some "static/.".toList := by decide
example : safe_join static_folder "a//b".toList = some "static/a/b".toList := by decide
example : safe_join static_folder "..x/y".toList = some "static/..x/y".toList := by decide
example : extOf "static/app.json".toList = "json".toList := by decide
example : extOf "static/.bashrc".toList = [] := by decide

def isDig (c : Char) : Bool := decide (48 ≤ c.toNat ∧ c.toNat ≤ 57)

def digVal (c : Char) : Nat := c.toNat - 48

def digitChar (d : Nat) : Char := Char.ofNat (48 + d)

/-- The whitespace stripped by the python int constructor (ASCII part). -/
def pyIsSpace (c : Char) : Bool :=
  decide (c.toNat = 32 ∨ c.toNat = 9 ∨ c.toNat = 10 ∨ c.toNat = 13 ∨
    c.toNat = 11 ∨ c.toNat = 12)

def pyStrip (l : PyStr) : PyStr :=
  ((l.dropWhile pyIsSpace).reverse.dropWhile pyIsSpace).reverse

/-- The digit loop of the python int constructor: decimal digits, with a
single underscore allowed only between two digits.  The flag records
whether the previous character was a digit; the loop fails on a dangling
underscore and requires at least one digit. -/
def digitsLoop : List Char → Nat → Bool → Option Nat
  | [], acc, prevDigit => if prevDigit then some acc else none
  | c :: rest, acc, prevDigit =>
    if c = '_' then (if prevDigit then digitsLoop rest acc false else none)
    else if isDig c then digitsLoop rest (acc * 10 + digVal c) true else none

def pyIntDigits (l : List Char) : Option Nat := digitsLoop l 0 false

/-- int(s) for a python string: strip whitespace, an optional sign, then
decimal digits; none models a ValueError. -/
def pyInt (s : PyStr) : Option Int :=
  match pyStrip s with
  | [] => none
  | c :: rest =>
    if c = '+' then (pyIntDigits rest).map (fun n => Int.ofNat n)
    else if c = '-' then (pyIntDigits rest).map (fun n => -(Int.ofNat n))
    else (pyIntDigits (c :: rest)).map (fun n => Int.ofNat n)

inductive StartupResult
  | running (host : PyStr) (port : Int)
  | startupError
  deriving DecidableEq

def host_all : PyStr := "0.0.0.0".toList

def port_key : PyStr := "PORT".toList

/-- The main block at src/smartlighting.py lines 17-19:
port = int(os.environ.get("PORT", 5000)); app.run(host="0.0.0.0",
port=port, debug=False).  The result running h p means app.run was reached
and the listener binds host h and port p; startupError means int() raised a
ValueError, so the process exits non-zero before any listener is bound and
before any request is served.  When PORT is unset, environ.get returns the
default 5000 already as a number, and int(5000) is 5000. -/
def mainStartup (env : PyStr → Option PyStr) : StartupResult :=
  match env port_key with
  | none => .running host_all 5000
  | some s =>
    match pyInt s with
    | some p => .running host_all p
    | none => .startupError

/-- Digits of a positive number, most significant first, by repeated
division; the first argument is fuel bounding the recursion. -/
def natReprAux : Nat → Nat → List Char
  | 0, _ => []
  | _ + 1, 0 => []
  | fuel + 1, n + 1 => natReprAux fuel ((n + 1) / 10) ++ [digitChar ((n + 1) % 10)]

/-- The decimal representation of a natural number. -/
def natRepr (n : Nat) : PyStr := if n = 0 then ['0'] else natReprAux n n

/-- The decimal representation of an integer. -/
def intRepr (p : Int) : PyStr :=
  if p < 0 then '-' :: natRepr p.natAbs else natRepr p.toNat

example : intRepr 8080 = "8080".toList := by decide
example : intRepr (-12) = "-12".toList := by decide
example : pyInt "8080".toList = some 8080 := by decide
example : pyInt " 5000 ".toList = some 5000 := by decide
example : pyInt "+7".toList = some 7 := by decide
example : pyInt "-12".toList = some (-12) := by decide
example : pyInt "1_0".toList = some 10 := by decide
example : pyInt "_5".toList = none := by decide
example : pyInt "5_".toList = none := by decide
example : pyInt "5__5".toList = none := by decide
example : pyInt "--5".toList = none := by decide
example : pyInt "+".toList = none := by decide
example : pyInt "".toList = none := by decide
example : pyInt "abc".toList = none := by decide
example : pyInt "0x10".toList = none := by decide

/-! ### Basic lemmas about the string primitives -/

theorem startsWithPy_iff (pre : PyStr) : ∀ s : PyStr,
    startsWithPy s pre = true ↔ ∃ r, s = pre ++ r := by
  induction pre with
  | nil =>
    intro s
    simp [startsWithPy]
  | cons p ps ih =>
    intro s
    cases s with
    | nil => simp [startsWithPy]
    | cons c cs =>
      simp only [startsWithPy]
      by_cases h : c = p
      · subst h
        rw [if_pos rfl, ih]
        constructor
        · rintro ⟨r, rfl⟩; exact ⟨r, rfl⟩
        · rintro ⟨r, hr⟩
          refine ⟨r, ?_⟩
          simpa using hr
      · rw [if_neg h]
        constructor
        · intro hf; cases hf
        · rintro ⟨r, hr⟩
          injection hr with h1 _
          exact absurd h1 h

theorem startsWithPy_append (pre r : PyStr) :
    startsWithPy (pre ++ r) pre = true :=
  (startsWithPy_iff pre (pre ++ r)).mpr ⟨r, rfl⟩

theorem splitSlash_no_slash : ∀ l : PyStr, ∀ s ∈ splitSlash l, ('/' : Char) ∉ s := by
  intro l
  induction l with
  | nil =>
    intro s hs
    simp [splitSlash] at hs
    subst hs; simp
  | cons c rest ih =>
    intro s hs
    simp only [splitSlash] at hs
    by_cases hc : c = '/'
    · rw [if_pos hc] at hs
      rcases List.mem_cons.mp hs with h | h
      · subst h; simp
      · exact ih s h
    · rw [if_neg hc] at hs
      cases hsp : splitSlash rest with
      | nil =>
        rw [hsp] at hs
        rcases List.mem_cons.mp hs with h | h
        · subst h
          intro hmem
          rcases List.mem_cons.mp hmem with h1 | h1
          · exact hc h1.symm
          · simp at h1
        · simp at h
      | cons a as =>
        rw [hsp] at hs
        rcases List.mem_cons.mp hs with h | h
        · subst h
          intro hmem
          rcases List.mem_cons.mp hmem with h1 | h1
          · exact hc h1.symm
          · exact ih a (by rw [hsp]; exact List.mem_cons_self a as) h1
        · exact ih s (by rw [hsp]; exact List.mem_cons.mpr (Or.inr h))

theorem dropWhile_of_none (p : Char → Bool) (l : List Char)
    (h : ∀ c ∈ l, p c = false) : l.dropWhile p = l := by
  cases l with
  | nil => rfl
  | cons c cs =>
    rw [List.dropWhile_cons, h c (List.mem_cons_self c cs)]
    simp

theorem pyStrip_of_no_space (l : PyStr) (h : ∀ c ∈ l, pyIsSpace c = false) :
    pyStrip l = l := by
  unfold pyStrip
  rw [dropWhile_of_none _ _ h,
    dropWhile_of_none _ _ (fun c hc => h c (List.mem_reverse.mp hc)),
    List.reverse_reverse]

theorem stripPrefixList_append (pre r : PyStr) :
    stripPrefixList pre (pre ++ r) = some r := by
  induction pre with
  | nil => rfl
  | cons p ps ih => simpa [stripPrefixList] using ih

/-! ### The normpath component loop -/

/-- Property of every ordinary (kept, non dot-dot) component of a
normalized relative path. -/
def goodSeg (x : PyStr) : Prop :=
  x ≠ [] ∧ x ≠ ['.'] ∧ x ≠ ['.', '.'] ∧ ('/' : Char) ∉ x

theorem walkK_cons (s : PyStr) (r : List PyStr) (k d : Nat) :
    walkK (s :: r) k d =
      (if s = [] ∨ s = ['.'] then walkK r k d
       else if s = ['.', '.'] then
         (if d = 0 then walkK r (k + 1) 0 else walkK r k (d - 1))
       else walkK r k (d + 1)) := rfl

theorem foldl_normStack_spec : ∀ segs : List PyStr,
    (∀ s ∈ segs, ('/' : Char) ∉ s) →
    ∀ ns k, (∀ x ∈ ns, goodSeg x) →
    ∃ ns' k', (∀ x ∈ ns', goodSeg x) ∧
      List.foldl (normStack false) (ns ++ List.replicate k ['.', '.']) segs
        = ns' ++ List.replicate k' ['.', '.'] ∧
      walkK segs k ns.length = (k', ns'.length) := by
  intro segs
  induction segs with
  | nil =>
    intro _ ns k hns
    exact ⟨ns, k, hns, rfl, rfl⟩
  | cons s r ih =>
    intro hseg ns k hns
    have hs : ('/' : Char) ∉ s := hseg s (List.mem_cons_self s r)
    have hr : ∀ t ∈ r, ('/' : Char) ∉ t :=
      fun t ht => hseg t (List.mem_cons.mpr (Or.inr ht))
    rw [List.foldl_cons]
    by_cases h1 : s = [] ∨ s = ['.']
    · rw [show normStack false (ns ++ List.replicate k ['.', '.']) s
          = ns ++ List.replicate k ['.', '.'] from by
        unfold normStack; rw [if_pos h1]]
      rw [show walkK (s :: r) k ns.length = walkK r k ns.length from by
        rw [walkK_cons, if_pos h1]]
      exact ih hr ns k hns
    · by_cases h2 : s = ['.', '.']
      · subst h2
        rcases ns with _ | ⟨n, ns0⟩
        · rcases k with _ | k0
          · rw [show normStack false ([] ++ List.replicate 0 ['.', '.']) ['.', '.']
                = [] ++ List.replicate 1 ['.', '.'] from by
              unfold normStack; rw [if_neg h1, if_pos rfl]; rfl]
            rw [show walkK (['.', '.'] :: r) 0 ([] : List PyStr).length
                = walkK r 1 ([] : List PyStr).length from by
              rw [walkK_cons, if_neg h1, if_pos rfl]; simp]
            exact ih hr [] 1 (by intro x hx; cases hx)
          · rw [show normStack false ([] ++ List.replicate (k0 + 1) ['.', '.']) ['.', '.']
                = [] ++ List.replicate (k0 + 2) ['.', '.'] from by
              unfold normStack
              rw [if_neg h1, if_pos rfl]
              simp [List.replicate_succ]]
            rw [show walkK (['.', '.'] :: r) (k0 + 1) ([] : List PyStr).length
                = walkK r (k0 + 2) ([] : List PyStr).length from by
              rw [walkK_cons, if_neg h1, if_pos rfl]; simp]
            exact ih hr [] (k0 + 2) (by intro x hx; cases hx)
        · have hn : goodSeg n := hns n (List.mem_cons_self n ns0)
          have hns0 : ∀ x ∈ ns0, goodSeg x :=
            fun x hx => hns x (List.mem_cons.mpr (Or.inr hx))
          rw [show normStack false ((n :: ns0) ++ List.replicate k ['.', '.']) ['.', '.']
              = ns0 ++ List.replicate k ['.', '.'] from by
            unfold normStack
            rw [if_neg h1, if_pos rfl]
            simp only [List.cons_append]
            rw [if_neg hn.2.2.1]]
          rw [show walkK (['.', '.'] :: r) k (n :: ns0).length
              = walkK r k ns0.length from by
            rw [walkK_cons, if_neg h1, if_pos rfl, if_neg (by simp)]
            simp]
          exact ih hr ns0 k hns0
      · have hgood : goodSeg s :=
          ⟨fun h => h1 (Or.inl h), fun h => h1 (Or.inr h), h2, hs⟩
        rw [show normStack false (ns ++ List.replicate k ['.', '.']) s
            = (s :: ns) ++ List.replicate k ['.', '.'] from by
          unfold normStack; rw [if_neg h1, if_neg h2]; rfl]
        rw [show walkK (s :: r) k ns.length = walkK r k (ns.length + 1) from by
          rw [walkK_cons, if_neg h1, if_neg h2]]
        have := ih hr (s :: ns) k
          (by
            intro x hx
            rcases List.mem_cons.mp hx with h | h
            · subst h; exact hgood
            · exact hns x h)
        simpa using this

/-! ### Characterizations of normpath and safe_join -/

theorem replicate_append_cons (n : Nat) (x : PyStr) (l : List PyStr) :
    List.replicate n x ++ x :: l = x :: (List.replicate n x ++ l) := by
  induction n with
  | zero => simp
  | succ m ih => simp [List.replicate_succ, ih]

theorem normpath_rel (name : PyStr) (hne : name ≠ [])
    (habs : startsWithPy name ['/'] = false) :
    normpath name =
      (if joinSlash (((splitSlash name).foldl (normStack false) []).reverse) = []
       then ['.']
       else joinSlash (((splitSlash name).foldl (normStack false) []).reverse)) := by
  unfold normpath
  rw [if_neg hne]
  simp [habs]

theorem startsWith_slash_helper (n : Nat) (l : PyStr) (hn : 0 < n) :
    startsWithPy
      (if List.replicate n '/' ++ l = [] then ['.'] else List.replicate n '/' ++ l)
      ['/'] = true := by
  obtain ⟨m, rfl⟩ : ∃ m, n = m + 1 := ⟨n - 1, by omega⟩
  rw [List.replicate_succ, List.cons_append, if_neg (by simp)]
  simp [startsWithPy]

theorem normpath_abs (name : PyStr) (habs : startsWithPy name ['/'] = true) :
    startsWithPy (normpath name) ['/'] = true := by
  have hne : name ≠ [] := by
    rintro rfl
    simp [startsWithPy] at habs
  unfold normpath
  rw [if_neg hne]
  simp only [habs, if_true]
  apply startsWith_slash_helper
  split <;> norm_num

theorem normpath_escape (name : PyStr)
    (habs : startsWithPy name ['/'] = false)
    (hesc : (walkK (splitSlash name) 0 0).1 ≠ 0) :
    normpath name = ['.', '.'] ∨
      startsWithPy (normpath name) ['.', '.', '/'] = true := by
  have hne : name ≠ [] := by
    rintro rfl
    simp [splitSlash, walkK] at hesc
  obtain ⟨ns', k', hgood, hfold, hwalk⟩ :=
    foldl_normStack_spec (splitSlash name) (splitSlash_no_slash name) [] 0
      (by intro x hx; cases hx)
  simp only [List.replicate, List.append_nil, List.nil_append] at hfold
  simp only [List.length_nil] at hwalk
  have hk : k' ≠ 0 := by
    rw [hwalk] at hesc
    exact hesc
  obtain ⟨k0, rfl⟩ : ∃ k0, k' = k0 + 1 := ⟨k' - 1, by omega⟩
  rw [normpath_rel name hne habs, hfold]
  have hcomps : (ns' ++ List.replicate (k0 + 1) ['.', '.']).reverse
      = ['.', '.'] :: (List.replicate k0 ['.', '.'] ++ ns'.reverse) := by
    simp [List.reverse_append, List.replicate_succ, replicate_append_cons]
  rw [hcomps]
  rcases hrest : List.replicate k0 ['.', '.'] ++ ns'.reverse with _ | ⟨b, t⟩
  · left
    simp [joinSlash]
  · right
    rw [show joinSlash (['.', '.'] :: b :: t)
        = ['.', '.'] ++ '/' :: joinSlash (b :: t) from rfl]
    rw [if_neg (by simp)]
    simp [startsWithPy]

theorem joinSlash_checks (a X : PyStr) (hg : goodSeg a)
    (hX : X = [] ∨ ∃ Z, X = '/' :: Z) :
    startsWithPy (a ++ X) ['/'] = false ∧ a ++ X ≠ ['.', '.'] ∧
      startsWithPy (a ++ X) ['.', '.', '/'] = false := by
  obtain ⟨hne, hdot, hdd, hsl⟩ := hg
  rcases a with _ | ⟨c1, a1⟩
  · exact absurd rfl hne
  have hc1 : ¬ c1 = '/' := by
    intro h; subst h; exact hsl (List.mem_cons_self _ _)
  refine ⟨by simp [startsWithPy, hc1], ?_, ?_⟩
  · rcases a1 with _ | ⟨c2, a2⟩
    · have hc1d : ¬ c1 = '.' := by
        intro h; subst h; exact hdot rfl
      rcases hX with rfl | ⟨Z, rfl⟩
      · simp [hc1d]
      · simp
    · rcases a2 with _ | ⟨c3, a3⟩
      · by_cases hc1d : c1 = '.'
        · subst hc1d
          have hc2d : ¬ c2 = '.' := by
            intro h; subst h; exact hdd rfl
          simp [hc2d]
        · simp [hc1d]
      · intro heq
        have := congrArg List.length heq
        simp at this
  · rcases a1 with _ | ⟨c2, a2⟩
    · have hc1d : ¬ c1 = '.' := by
        intro h; subst h; exact hdot rfl
      simp [startsWithPy, hc1d]
    · by_cases hc1d : c1 = '.'
      · subst hc1d
        rcases a2 with _ | ⟨c3, a3⟩
        · have hc2d : ¬ c2 = '.' := by
            intro h; subst h; exact hdd rfl
          simp [startsWithPy, hc2d]
        · have hc3 : ¬ c3 = '/' := by
            intro h; subst h
            exact hsl (by simp)
          simp [startsWithPy, hc3]
      · simp [startsWithPy, hc1d]

theorem posixJoin_static (f : PyStr) (h : startsWithPy f ['/'] = false) :
    posixJoin static_folder f = static_folder ++ '/' :: f := by
  unfold posixJoin
  rw [if_neg (by simp [h]), if_neg (by decide)]

theorem safe_join_of_escape (name : PyStr) (h : resolvesOutside name) :
    safe_join static_folder name = none := by
  have hne : name ≠ [] := by
    rintro rfl
    rcases h with h | h
    · simp [startsWithPy] at h
    · simp [splitSlash, walkK] at h
  by_cases habs : startsWithPy name ['/'] = true
  · have hout := normpath_abs name habs
    simp [safe_join, hne, hout]
  · have habs' : startsWithPy name ['/'] = false := by
      rwa [Bool.not_eq_true] at habs
    have hesc : (walkK (splitSlash name) 0 0).1 ≠ 0 := by
      rcases h with h | h
      · exact absurd h habs
      · exact h
    rcases normpath_escape name habs' hesc with h1 | h1
    · simp [safe_join, hne, h1]
    · simp [safe_join, hne, h1]

theorem normpath_noescape_checks (name : PyStr) (hne : name ≠ [])
    (habs : startsWithPy name ['/'] = false)
    (hkk : (walkK (splitSlash name) 0 0).1 = 0) :
    startsWithPy (normpath name) ['/'] = false ∧ normpath name ≠ ['.', '.'] ∧
      startsWithPy (normpath name) ['.', '.', '/'] = false := by
  obtain ⟨ns', k', hgood, hfold, hwalk⟩ :=
    foldl_normStack_spec (splitSlash name) (splitSlash_no_slash name) [] 0
      (by intro x hx; cases hx)
  simp only [List.replicate, List.append_nil, List.nil_append] at hfold
  simp only [List.length_nil] at hwalk
  have hk' : k' = 0 := by
    rw [hwalk] at hkk
    exact hkk
  subst hk'
  simp only [List.replicate, List.append_nil] at hfold
  have hnorm := normpath_rel name hne habs
  rw [hfold] at hnorm
  rcases hrev : ns'.reverse with _ | ⟨a, t⟩
  · rw [hnorm, hrev]
    refine ⟨by simp [joinSlash, startsWithPy], ?_, by simp [joinSlash, startsWithPy]⟩
    simp [joinSlash]
  · have hga : goodSeg a := by
      apply hgood
      rw [← List.mem_reverse, hrev]
      exact List.mem_cons_self _ _
    rcases t with _ | ⟨b, t'⟩
    · rw [hnorm, hrev]
      rw [show joinSlash [a] = a from rfl, if_neg hga.1]
      have := joinSlash_checks a [] hga (Or.inl rfl)
      simpa using this
    · rw [hnorm, hrev]
      rw [show joinSlash (a :: b :: t') = a ++ '/' :: joinSlash (b :: t') from rfl]
      rw [if_neg (by simp [hga.1])]
      exact joinSlash_checks a ('/' :: joinSlash (b :: t')) hga (Or.inr ⟨_, rfl⟩)

theorem safe_join_of_noescape (name : PyStr) (hne : name ≠ [])
    (h : ¬ resolvesOutside name) :
    safe_join static_folder name = some (staticResolved name) := by
  rw [resolvesOutside] at h
  push_neg at h
  obtain ⟨habs', hk0⟩ := h
  have habs : startsWithPy name ['/'] = false := Bool.eq_false_iff.mpr habs'
  have hkk : (walkK (splitSlash name) 0 0).1 = 0 := by omega
  obtain ⟨h1, h2, h3⟩ := normpath_noescape_checks name hne habs hkk
  have hjoin := posixJoin_static (normpath name) h1
  have hsf : (if static_folder = [] then (['.'] : PyStr) else static_folder)
      = static_folder := by decide
  simp [safe_join, hne, h1, h2, h3, hsf, hjoin, staticResolved]

/-! ### Dispatch lemmas -/

theorem prefix_ne_root (name : PyStr) : ¬ (static_route ++ name = ['/']) := by
  intro h
  have hlen := congrArg List.length h
  have h8 : static_route.length = 8 := by decide
  rw [List.length_append, h8] at hlen
  simp at hlen
  omega

theorem handle_static_eq (fs : FS) (req : Request) (name : PyStr)
    (hmeth : req.method = "GET".toList)
    (hpath : req.path = static_route ++ name)
    (hn1 : name ≠ []) (hn2 : startsWithPy name ['/'] = false) :
    handle fs req = static_files fs name := by
  simp [handle, hmeth, hpath, stripPrefixList_append, prefix_ne_root name, hn1, hn2]

theorem handle_static_guard (fs : FS) (req : Request) (name : PyStr)
    (hmeth : req.method = "GET".toList)
    (hpath : req.path = static_route ++ name)
    (hg : name = [] ∨ startsWithPy name ['/'] = true) :
    handle fs req = (notFoundResp, []) := by
  rcases hg with rfl | hg
  · have h1 : ¬ (static_route = ['/']) := by decide
    have h2 : stripPrefixList static_route static_route = some [] := by decide
    simp [handle, hmeth, hpath, h1, h2]
  · simp [handle, hmeth, hpath, stripPrefixList_append, prefix_ne_root name, hg]

/-! ### The claims about the static route -/

/-- C1: a GET request for a static filename containing path-traversal
segments, or any decoded equivalent, that would resolve outside the static
assets directory is answered with the 404 response and never with file
contents: the framework route converter rejects a leading slash, and
safe_join rejects every filename whose normalization is absolute, dot-dot,
or begins with a dot-dot segment. -/
theorem static_traversal_guarded (fs : FS) (req : Request) (name : PyStr)
    (hmeth : req.method = "GET".toList)
    (hpath : req.path = static_route ++ name)
    (hout : resolvesOutside name) :
    (handle fs req).1 = notFoundResp := by
  have hne : name ≠ [] := by
    rintro rfl
    rcases hout with h | h
    · simp [startsWithPy] at h
    · simp [splitSlash, walkK] at h
  by_cases habs : startsWithPy name ['/'] = true
  · rw [handle_static_guard fs req name hmeth hpath (Or.inr habs)]
  · have habs' : startsWithPy name ['/'] = false := Bool.eq_false_iff.mpr habs
    rw [handle_static_eq fs req name hmeth hpath hne habs']
    simp [static_files, send_from_directory, safe_join_of_escape name hout]

theorem static_traversal_guarded_witness :
    (handle (fun p => if p = "secret".toList then some "s3cr3t".toList else none)
      ⟨"GET".toList, "/static/../secret".toList, [], [], []⟩).1 = notFoundResp :=
  static_traversal_guarded _ _ "../secret".toList (by decide) (by decide) (by decide)

/-- C2: a GET request for a static filename that resolves, without
escaping, to a regular file under the static assets directory is answered
with status 200, a body byte-identical to the file contents, and a content
type derived from the extension of the resolved path. -/
theorem static_existing_file_served (fs : FS) (req : Request)
    (name content : PyStr)
    (hmeth : req.method = "GET".toList)
    (hpath : req.path = static_route ++ name)
    (hne : name ≠ [])
    (hin : ¬ resolvesOutside name)
    (hfile : fs (staticResolved name) = some content) :
    (handle fs req).1 =
      ⟨200, content, mimeFromExt (extOf (staticResolved name))⟩ := by
  have habs : startsWithPy name ['/'] = false := by
    cases hb : startsWithPy name ['/'] with
    | false => rfl
    | true => exact absurd (Or.inl hb) hin
  rw [handle_static_eq fs req name hmeth hpath hne habs]
  simp [static_files, send_from_directory, safe_join_of_noescape name hne hin, hfile]

theorem static_existing_file_served_witness :
    (handle (fun p => if p = "static/app.json".toList then some "x123".toList else none)
      ⟨"GET".toList, "/static/app.json".toList, [], [], []⟩).1 =
      ⟨200, "x123".toList, mimeFromExt (extOf (staticResolved "app.json".toList))⟩ :=
  static_existing_file_served _ _ "app.json".toList "x123".toList
    (by decide) (by decide) (by decide) (by decide) (by decide)

/-- C3: a GET request for a static filename with no regular file at the
resolved path under the static assets directory is answered with status
404. -/
theorem static_missing_file_404 (fs : FS) (req : Request) (name : PyStr)
    (hmeth : req.method = "GET".toList)
    (hpath : req.path = static_route ++ name)
    (hne : name ≠ [])
    (hmiss : fs (staticResolved name) = none) :
    (handle fs req).1.status = 404 := by
  by_cases habs : startsWithPy name ['/'] = true
  · rw [handle_static_guard fs req name hmeth hpath (Or.inr habs)]
    rfl
  · have habs' : startsWithPy name ['/'] = false := Bool.eq_false_iff.mpr habs
    rw [handle_static_eq fs req name hmeth hpath hne habs']
    by_cases hesc : (walkK (splitSlash name) 0 0).1 ≠ 0
    · have hsj := safe_join_of_escape name (Or.inr hesc)
      simp [static_files, send_from_directory, hsj, notFoundResp]
    · have hin : ¬ resolvesOutside name := by
        rw [resolvesOutside]
        push_neg
        exact ⟨habs, not_not.mp hesc⟩
      have hsj := safe_join_of_noescape name hne hin
      simp [static_files, send_from_directory, hsj, hmiss, notFoundResp]

theorem static_missing_file_404_witness :
    (handle (fun _ => none)
      ⟨"GET".toList, "/static/missing.txt".toList, [], [], []⟩).1.status = 404 :=
  static_missing_file_404 _ _ "missing.txt".toList
    (by decide) (by decide) (by decide) (by decide)

/-! ### The claims about the index route -/

theorem handle_root_eq (fs : FS) (req : Request)
    (hmeth : req.method = "GET".toList) (hpath : req.path = "/".toList) :
    handle fs req = index fs := by
  simp [handle, hmeth, hpath]

/-- C4: a GET request for the root path is answered with status 200 and a
body equal to the contents of the index template file, rendered verbatim,
for every readable template content. -/
theorem index_template_served (fs : FS) (req : Request) (content : PyStr)
    (hmeth : req.method = "GET".toList)
    (hpath : req.path = "/".toList)
    (htmpl : fs template_path = some content) :
    (handle fs req).1 = ⟨200, content, "text/html"⟩ := by
  rw [handle_root_eq fs req hmeth hpath]
  simp [index, render_template_index, htmpl]

theorem index_template_served_witness :
    (handle (fun p => if p = template_path then some "hello".toList else none)
      ⟨"GET".toList, "/".toList, [], [], []⟩).1 =
      ⟨200, "hello".toList, "text/html"⟩ :=
  index_template_served _ _ "hello".toList (by decide) (by decide) (by decide)

/-- C5: when no readable index template file exists, a GET request for the
root path is answered with status 500 and in particular not with a 200
response. -/
theorem index_missing_template_500 (fs : FS) (req : Request)
    (hmeth : req.method = "GET".toList)
    (hpath : req.path = "/".toList)
    (hmiss : fs template_path = none) :
    (handle fs req).1.status = 500 ∧ (handle fs req).1.status ≠ 200 := by
  rw [handle_root_eq fs req hmeth hpath]
  constructor <;> simp [index, render_template_index, hmiss, internalErrorResp]

theorem index_missing_template_500_witness :
    (handle (fun _ => none) ⟨"GET".toList, "/".toList, [], [], []⟩).1.status = 500 ∧
    (handle (fun _ => none) ⟨"GET".toList, "/".toList, [], [], []⟩).1.status ≠ 200 :=
  index_missing_template_500 _ _ (by decide) (by decide) (by decide)

/-- C9: two GET requests to the root path produce identical responses no
matter how their headers, query strings, and bodies differ: dispatch and
the index handler consult only the method, the path, and the template
file. -/
theorem index_ignores_request_attributes (fs : FS) (r1 r2 : Request)
    (h1m : r1.method = "GET".toList) (h2m : r2.method = "GET".toList)
    (h1p : r1.path = "/".toList) (h2p : r2.path = "/".toList) :
    handle fs r1 = handle fs r2 := by
  rw [handle_root_eq fs r1 h1m h1p, handle_root_eq fs r2 h2m h2p]

theorem index_ignores_request_attributes_witness :
    handle (fun _ => none)
      ⟨"GET".toList, "/".toList, [("X".toList, "1".toList)], "a=b".toList, []⟩ =
    handle (fun _ => none)
      ⟨"GET".toList, "/".toList, [], "c=d".toList, "payload".toList⟩ :=
  index_ignores_request_attributes _ _ _ (by decide) (by decide) (by decide) (by decide)

/-! ### The read-only invariant -/

theorem handle_ops_read_only (fs : FS) (req : Request) :
    ∀ op ∈ (handle fs req).2, op.isWrite = false := by
  intro op hop
  unfold handle at hop
  split at hop
  · simp at hop
  · split at hop
    · unfold index render_template_index at hop
      split at hop
      · simp at hop
        subst hop
        rfl
      · simp at hop
        subst hop
        rfl
    · split at hop
      · split at hop
        · simp at hop
        · unfold static_files send_from_directory at hop
          split at hop
          · simp at hop
          · split at hop
            · simp at hop
              subst hop
              rfl
            · simp at hop
              rcases hop with rfl | rfl <;> rfl
      · simp at hop

/-- C8: over every sequence of handled requests, every filesystem operation
performed by the index and static handlers is a stat or a read and never a
write, so all served content is unchanged relative to process start. -/
theorem server_never_writes (fs : FS) (rs : List Request) :
    ∀ op ∈ (serveAll fs rs).2, op.isWrite = false := by
  induction rs with
  | nil =>
    intro op hop
    simp [serveAll] at hop
  | cons r rs ih =>
    intro op hop
    simp only [serveAll] at hop
    rcases List.mem_append.mp hop with h | h
    · exact handle_ops_read_only fs r op h
    · exact ih op h

theorem server_never_writes_witness :
    FsOp.isWrite (FsOp.read template_path) = false :=
  server_never_writes (fun p => if p = template_path then some "hi".toList else none)
    [⟨"GET".toList, "/".toList, [], [], []⟩] (FsOp.read template_path) (by decide)

/-! ### Correctness of int parsing on decimal representations -/

theorem isDig_digitChar (m : Nat) (h : m < 10) : isDig (digitChar m) = true := by
  interval_cases m <;> decide

theorem digVal_digitChar (m : Nat) (h : m < 10) : digVal (digitChar m) = m := by
  interval_cases m <;> decide

theorem isDig_not_space (c : Char) (h : isDig c = true) : pyIsSpace c = false := by
  simp only [isDig, decide_eq_true_eq] at h
  simp only [pyIsSpace, decide_eq_false_iff_not]
  omega

theorem isDig_ne_underscore (c : Char) (h : isDig c = true) : ¬ c = '_' := by
  intro he
  subst he
  exact absurd h (by decide)

theorem isDig_ne_plus (c : Char) (h : isDig c = true) : ¬ c = '+' := by
  intro he
  subst he
  exact absurd h (by decide)

theorem isDig_ne_minus (c : Char) (h : isDig c = true) : ¬ c = '-' := by
  intro he
  subst he
  exact absurd h (by decide)

theorem digitsLoop_cons (c : Char) (rest : List Char) (acc : Nat) (b : Bool) :
    digitsLoop (c :: rest) acc b =
      (if c = '_' then (if b then digitsLoop rest acc false else none)
       else if isDig c then digitsLoop rest (acc * 10 + digVal c) true else none) := rfl

theorem digitsLoop_all : ∀ l : List Char,
    (∀ c ∈ l, isDig c = true) → ∀ acc : Nat,
    digitsLoop l acc true = some (l.foldl (fun a c => a * 10 + digVal c) acc) := by
  intro l
  induction l with
  | nil => intro _ acc; rfl
  | cons c rest ih =>
    intro hall acc
    have hc : isDig c = true := hall c (List.mem_cons_self _ _)
    have hrest : ∀ x ∈ rest, isDig x = true :=
      fun x hx => hall x (List.mem_cons.mpr (Or.inr hx))
    rw [digitsLoop_cons, if_neg (isDig_ne_underscore c hc), if_pos hc, ih hrest]
    simp [List.foldl_cons]

theorem natReprAux_digits : ∀ f n : Nat, n ≤ f →
    ∀ c ∈ natReprAux f n, isDig c = true := by
  intro f
  induction f with
  | zero =>
    intro n hn c hc
    simp [natReprAux] at hc
  | succ f ih =>
    intro n hn c hc
    cases n with
    | zero => simp [natReprAux] at hc
    | succ m =>
      simp only [natReprAux] at hc
      rcases List.mem_append.mp hc with h | h
      · have hdiv : (m + 1) / 10 ≤ f := by
          have := Nat.div_lt_self (Nat.succ_pos m) (show 1 < 10 by norm_num)
          omega
        exact ih ((m + 1) / 10) hdiv c h
      · simp at h
        subst h
        exact isDig_digitChar _ (Nat.mod_lt _ (by norm_num))

theorem natReprAux_foldl : ∀ f n acc : Nat, n ≤ f →
    List.foldl (fun a c => a * 10 + digVal c) acc (natReprAux f n)
      = acc * 10 ^ (natReprAux f n).length + n := by
  intro f
  induction f with
  | zero =>
    intro n acc hn
    interval_cases n
    simp [natReprAux]
  | succ f ih =>
    intro n acc hn
    cases n with
    | zero => simp [natReprAux]
    | succ m =>
      have hdiv : (m + 1) / 10 ≤ f := by
        have := Nat.div_lt_self (Nat.succ_pos m) (show 1 < 10 by norm_num)
        omega
      have hqr : (m + 1) / 10 * 10 + (m + 1) % 10 = m + 1 := by omega
      simp only [natReprAux, List.foldl_append, List.length_append, List.length_cons,
        List.length_nil, List.foldl_cons, List.foldl_nil]
      rw [ih _ acc hdiv, digVal_digitChar _ (Nat.mod_lt _ (by norm_num))]
      calc (acc * 10 ^ (natReprAux f ((m + 1) / 10)).length + (m + 1) / 10) * 10
            + (m + 1) % 10
          = acc * (10 ^ (natReprAux f ((m + 1) / 10)).length * 10)
            + ((m + 1) / 10 * 10 + (m + 1) % 10) := by ring
        _ = acc * 10 ^ ((natReprAux f ((m + 1) / 10)).length + 1) + (m + 1) := by
            rw [hqr, pow_succ]

theorem natReprAux_ne_nil (f n : Nat) (h0 : 0 < n) (hf : n ≤ f) :
    natReprAux f n ≠ [] := by
  cases f with
  | zero => omega
  | succ f =>
    cases n with
    | zero => omega
    | succ m => simp [natReprAux]

theorem natRepr_digits (n : Nat) : ∀ c ∈ natRepr n, isDig c = true := by
  unfold natRepr
  by_cases h : n = 0
  · rw [if_pos h]
    intro c hc
    simp at hc
    subst hc
    decide
  · rw [if_neg h]
    exact natReprAux_digits n n le_rfl

theorem natRepr_ne_nil (n : Nat) : natRepr n ≠ [] := by
  unfold natRepr
  by_cases h : n = 0
  · rw [if_pos h]; simp
  · rw [if_neg h]
    exact natReprAux_ne_nil n n (by omega) le_rfl

theorem natRepr_foldl (n : Nat) :
    List.foldl (fun a c => a * 10 + digVal c) 0 (natRepr n) = n := by
  unfold natRepr
  by_cases h : n = 0
  · rw [if_pos h, h]; decide
  · rw [if_neg h]
    have := natReprAux_foldl n n 0 le_rfl
    simpa using this

theorem pyIntDigits_natRepr (n : Nat) : pyIntDigits (natRepr n) = some n := by
  rcases hl : natRepr n with _ | ⟨c, rest⟩
  · exact absurd hl (natRepr_ne_nil n)
  · have hc : isDig c = true :=
      natRepr_digits n c (by rw [hl]; exact List.mem_cons_self _ _)
    have hrest : ∀ x ∈ rest, isDig x = true :=
      fun x hx => natRepr_digits n x (by rw [hl]; exact List.mem_cons.mpr (Or.inr hx))
    unfold pyIntDigits
    rw [digitsLoop_cons, if_neg (isDig_ne_underscore c hc), if_pos hc,
      digitsLoop_all rest hrest]
    have hv := natRepr_foldl n
    rw [hl, List.foldl_cons] at hv
    rw [hv]

theorem pyInt_intRepr (p : Int) : pyInt (intRepr p) = some p := by
  by_cases hp : p < 0
  · unfold intRepr
    rw [if_pos hp]
    unfold pyInt
    have hstrip : pyStrip ('-' :: natRepr p.natAbs) = '-' :: natRepr p.natAbs := by
      apply pyStrip_of_no_space
      intro c hc
      rcases List.mem_cons.mp hc with rfl | h
      · decide
      · exact isDig_not_space c (natRepr_digits _ c h)
    rw [hstrip]
    show (if ('-' : Char) = '+' then
            (pyIntDigits (natRepr p.natAbs)).map (fun n => Int.ofNat n)
          else if ('-' : Char) = '-' then
            (pyIntDigits (natRepr p.natAbs)).map (fun n => -(Int.ofNat n))
          else (pyIntDigits ('-' :: natRepr p.natAbs)).map (fun n => Int.ofNat n))
        = some p
    rw [if_neg (by decide), if_pos rfl, pyIntDigits_natRepr]
    simp only [Option.map_some']
    congr 1
    rw [Int.ofNat_eq_natCast]
    omega
  · unfold intRepr
    rw [if_neg hp]
    unfold pyInt
    have hstrip : pyStrip (natRepr p.toNat) = natRepr p.toNat :=
      pyStrip_of_no_space _ (fun c hc => isDig_not_space c (natRepr_digits _ c hc))
    rw [hstrip]
    rcases hl : natRepr p.toNat with _ | ⟨c, rest⟩
    · exact absurd hl (natRepr_ne_nil _)
    · have hc : isDig c = true :=
        natRepr_digits _ c (by rw [hl]; exact List.mem_cons_self _ _)
      show (if c = '+' then (pyIntDigits rest).map (fun n => Int.ofNat n)
            else if c = '-' then (pyIntDigits rest).map (fun n => -(Int.ofNat n))
            else (pyIntDigits (c :: rest)).map (fun n => Int.ofNat n)) = some p
      rw [if_neg (isDig_ne_plus c hc), if_neg (isDig_ne_minus c hc)]
      rw [← hl, pyIntDigits_natRepr]
      simp only [Option.map_some']
      congr 1
      rw [Int.ofNat_eq_natCast]
      omega

/-! ### The claims about startup -/

theorem mainStartup_none (env : PyStr → Option PyStr)
    (h : env port_key = none) :
    mainStartup env = .running host_all 5000 := by
  unfold mainStartup
  rw [h]

theorem mainStartup_some (env : PyStr → Option PyStr) (s : PyStr)
    (h : env port_key = some s) :
    mainStartup env =
      (match pyInt s with
       | some p => StartupResult.running host_all p
       | none => StartupResult.startupError) := by
  unfold mainStartup
  rw [h]

/-- C6: when the PORT environment variable holds the decimal representation
of an integer p, startup reaches the bind call with port p; when PORT is
unset, it reaches the bind call with the default port 5000. -/
theorem port_env_controls_bind (env : PyStr → Option PyStr) (p : Int) :
    (env port_key = some (intRepr p) →
      mainStartup env = .running host_all p) ∧
    (env port_key = none →
      mainStartup env = .running host_all 5000) := by
  constructor
  · intro h
    rw [mainStartup_some env _ h, pyInt_intRepr]
  · intro h
    exact mainStartup_none env h

theorem port_env_controls_bind_witness :
    mainStartup (fun k => if k = port_key then some (intRepr 8080) else none)
      = .running host_all 8080 ∧
    mainStartup (fun _ => none) = .running host_all 5000 :=
  ⟨(port_env_controls_bind (fun k => if k = port_key then some (intRepr 8080) else none)
      8080).1 (by decide),
   (port_env_controls_bind (fun _ => none) 8080).2 rfl⟩

/-- C7: whenever startup reaches the bind call, the bound host is 0.0.0.0,
for every environment. -/
theorem startup_host_unconditional (env : PyStr → Option PyStr) (h : PyStr) (p : Int)
    (hrun : mainStartup env = .running h p) : h = host_all := by
  rcases henv : env port_key with _ | s
  · rw [mainStartup_none env henv] at hrun
    injection hrun with h1 _
    exact h1.symm
  · rw [mainStartup_some env s henv] at hrun
    rcases hp : pyInt s with _ | q
    · rw [hp] at hrun
      exact StartupResult.noConfusion hrun
    · rw [hp] at hrun
      injection hrun with h1 _
      exact h1.symm

theorem startup_host_unconditional_witness : host_all = host_all :=
  startup_host_unconditional
    (fun k => if k = port_key then some "8081".toList else none)
    host_all 8081 (by decide)

/-- C10: when the PORT environment variable holds a string that int() does
not accept as an integer literal, startup ends in the error state: the
conversion raises before app.run is reached, so no listener is bound, no
request is served, and the process exits non-zero. -/
theorem invalid_port_aborts_startup (env : PyStr → Option PyStr) (s : PyStr)
    (hset : env port_key = some s) (hbad : pyInt s = none) :
    mainStartup env = .startupError := by
  rw [mainStartup_some env s hset, hbad]

theorem invalid_port_aborts_startup_witness :
    mainStartup (fun k => if k = port_key then some "abc".toList else none)
      = .startupError :=
  invalid_port_aborts_startup _ "abc".toList (by decide) (by decide)
